import Mathlib

/-!
Verification of the agent core: stream aggregation, approval tickets,
tool dispatch with retries, runtime statistics, the event bus, and the
bounded agent loop. Definitions shallowly embed the Python sources
(`core/agent_runner.py`, `api/executor.py`, `api/approvals.py`,
`core/opencode_runtime.py`); external library behaviour (JSON parsing,
uuid generation, wall-clock time, the provider stream) is passed in as
explicit parameters or oracles.
-/

namespace AgentCore

/-! ## Stream aggregation (`AgentRunner._stream_chat`)

A provider delta may carry tool-call fragments.  In the Python source a
fragment's `id`, `function.name` and `function.arguments` can be absent
(`None`) or empty; both cases are skipped by the truthiness tests
`if tc.id:` etc., so they are modelled as the empty string. -/

structure ToolCallFrag where
  index : Nat
  id : String
  name : String
  arguments : String
  deriving DecidableEq, Repr

structure ToolCallAcc where
  id : String
  name : String
  arguments : String
  deriving DecidableEq, Repr

structure Delta where
  content : String
  toolCalls : List ToolCallFrag
  deriving DecidableEq, Repr

/-- First-match lookup in the index-keyed fragment map (Python dict lookup). -/
def lookupIdx : List (Nat × ToolCallAcc) → Nat → Option ToolCallAcc
  | [], _ => none
  | kv :: rest, i => if kv.1 = i then some kv.2 else lookupIdx rest i

/-- Update the entry stored under key `i`, leaving all other keys alone
(Python `collected_tool_calls[idx][...] = ...`). -/
def updateIdx (m : List (Nat × ToolCallAcc)) (i : Nat) (f : ToolCallAcc → ToolCallAcc) :
    List (Nat × ToolCallAcc) :=
  m.map fun kv => if kv.1 = i then (kv.1, f kv.2) else kv

/-- One fragment merged into the accumulator map, exactly as the body of
`for tc in delta.tool_calls:` in `_stream_chat` does it: insert a fresh
entry if the index is new, then set `id`/`name` when present and append
`arguments` when present. -/
def processToolCallFrag (m : List (Nat × ToolCallAcc)) (tc : ToolCallFrag) :
    List (Nat × ToolCallAcc) :=
  let m1 := match lookupIdx m tc.index with
    | none => m ++ [(tc.index, ⟨tc.id, tc.name, ""⟩)]
    | some _ => m
  let m2 := if tc.id ≠ "" then updateIdx m1 tc.index (fun a => { a with id := tc.id }) else m1
  let m3 := if tc.name ≠ "" then updateIdx m2 tc.index (fun a => { a with name := tc.name }) else m2
  if tc.arguments ≠ "" then
    updateIdx m3 tc.index (fun a => { a with arguments := a.arguments ++ tc.arguments })
  else m3

/-- All fragments of a delta sequence in arrival order. -/
def allFrags (deltas : List Delta) : List ToolCallFrag :=
  deltas.foldr (fun d acc => d.toolCalls ++ acc) []

/-- The fragment map accumulated over a whole stream of deltas. -/
def collectToolCalls (deltas : List Delta) : List (Nat × ToolCallAcc) :=
  deltas.foldl (fun m d => d.toolCalls.foldl processToolCallFrag m) []

def idxLE (p q : Nat × ToolCallAcc) : Prop := p.1 ≤ q.1

instance : DecidableRel idxLE := fun p q => inferInstanceAs (Decidable (p.1 ≤ q.1))

instance : IsTotal (Nat × ToolCallAcc) idxLE := ⟨fun a b => Nat.le_total a.1 b.1⟩

instance : IsTrans (Nat × ToolCallAcc) idxLE := ⟨fun _ _ _ h1 h2 => Nat.le_trans h1 h2⟩

/-- `sorted(collected_tool_calls.items(), key=lambda item: item[0])`: the
finalized (index, accumulator) pairs in ascending index order.  The keys are
distinct, so any sort sorted on the first component computes the same list
as Python's stable sort. -/
def finalizeToolCalls (deltas : List Delta) : List (Nat × ToolCallAcc) :=
  (collectToolCalls deltas).insertionSort idxLE

structure ToolCallEntry where
  id : String
  name : String
  arguments : String
  deriving DecidableEq, Repr

/-- The `tool_calls` list of the finalized assistant message. -/
def finalToolCallList (deltas : List Delta) : List ToolCallEntry :=
  (finalizeToolCalls deltas).map fun kv => ⟨kv.2.id, kv.2.name, kv.2.arguments⟩

/-- Concatenation of a list of strings, in order. -/
def concatStrings : List String → String
  | [] => ""
  | s :: rest => s ++ concatStrings rest

/-- The exact concatenation, in arrival order, of the argument fragments
received for index `i`. -/
def argumentsFor (frs : List ToolCallFrag) (i : Nat) : String :=
  concatStrings ((frs.filter fun tc => tc.index = i).map fun tc => tc.arguments)

theorem string_empty_append (s : String) : "" ++ s = s := by
  cases s with
  | mk data => rfl

theorem lookupIdx_updateIdx (m : List (Nat × ToolCallAcc)) (i : Nat)
    (f : ToolCallAcc → ToolCallAcc) (j : Nat) :
    lookupIdx (updateIdx m i f) j =
      if j = i then (lookupIdx m j).map f else lookupIdx m j := by
  induction m with
  | nil => simp [updateIdx, lookupIdx]
  | cons kv rest ih =>
    simp only [updateIdx, List.map_cons] at ih ⊢
    by_cases hk : kv.1 = i
    · by_cases hkj : kv.1 = j
      · have hji : j = i := hkj ▸ hk
        simp [lookupIdx, hk, hkj, hji]
      · have hij : ¬ i = j := hk ▸ hkj
        have hji : ¬ j = i := fun h => hij h.symm
        simp [lookupIdx, hk, hkj, ih, hij, hji]
    · by_cases hkj : kv.1 = j
      · have hji : ¬ j = i := fun h => hk (hkj.trans h)
        simp [lookupIdx, hk, hkj, hji]
      · simp [lookupIdx, hk, hkj, ih]

theorem lookupIdx_append_single (m : List (Nat × ToolCallAcc)) (k : Nat) (v : ToolCallAcc)
    (j : Nat) (hm : lookupIdx m k = none) :
    lookupIdx (m ++ [(k, v)]) j = if j = k then some v else lookupIdx m j := by
  induction m with
  | nil =>
    by_cases hj : j = k
    · subst hj; simp [lookupIdx]
    · have hkj : ¬ k = j := fun h => hj h.symm
      simp [lookupIdx, hj, hkj]
  | cons kv rest ih =>
    rw [lookupIdx] at hm
    by_cases hkk : kv.1 = k
    · rw [if_pos hkk] at hm; exact Option.noConfusion hm
    · rw [if_neg hkk] at hm
      by_cases hkj : kv.1 = j
      · have hjk : ¬ j = k := fun h => hkk (hkj.trans h)
        simp [lookupIdx, hkj, hjk]
      · simp only [List.cons_append, lookupIdx, if_neg hkj]
        exact ih hm

theorem string_append_empty (s : String) : s ++ "" = s := by
  cases s with
  | mk data => show String.mk (data ++ []) = String.mk data
               rw [List.append_nil]

/-- The accumulator value stored under `tc.index` after merging `tc` into a
map whose previous entry for that index was `o`. -/
def stepAcc (o : Option ToolCallAcc) (tc : ToolCallFrag) : ToolCallAcc :=
  match o with
  | some a => ⟨if tc.id = "" then a.id else tc.id,
               if tc.name = "" then a.name else tc.name,
               a.arguments ++ tc.arguments⟩
  | none => ⟨tc.id, tc.name, tc.arguments⟩

theorem lookupIdx_process (m : List (Nat × ToolCallAcc)) (tc : ToolCallFrag) (j : Nat) :
    lookupIdx (processToolCallFrag m tc) j =
      if j = tc.index then some (stepAcc (lookupIdx m tc.index) tc)
      else lookupIdx m j := by
  unfold processToolCallFrag
  cases hm : lookupIdx m tc.index with
  | none =>
    have h1 : ∀ jj, lookupIdx (m ++ [(tc.index, ⟨tc.id, tc.name, ""⟩)]) jj =
        if jj = tc.index then some ⟨tc.id, tc.name, ""⟩ else lookupIdx m jj :=
      fun jj => lookupIdx_append_single m tc.index _ jj hm
    by_cases hj : j = tc.index <;> split_ifs <;>
      simp_all [lookupIdx_updateIdx, stepAcc, string_empty_append, string_append_empty]
  | some a =>
    by_cases hj : j = tc.index <;> split_ifs <;>
      simp_all [lookupIdx_updateIdx, stepAcc, string_empty_append, string_append_empty]

/-- The fragment map never holds two entries with the same index. -/
def KeysDistinct (m : List (Nat × ToolCallAcc)) : Prop :=
  m.Pairwise fun p q => p.1 ≠ q.1

theorem keysDistinct_updateIdx (m : List (Nat × ToolCallAcc)) (i : Nat)
    (f : ToolCallAcc → ToolCallAcc) (h : KeysDistinct m) :
    KeysDistinct (updateIdx m i f) := by
  unfold KeysDistinct at h ⊢
  unfold updateIdx
  rw [List.pairwise_map]
  have key_eq : ∀ kv : Nat × ToolCallAcc,
      ((if kv.1 = i then (kv.1, f kv.2) else kv) : Nat × ToolCallAcc).1 = kv.1 := by
    intro kv; by_cases hkv : kv.1 = i <;> simp [hkv]
  exact h.imp fun {a b} hne => by
    rw [key_eq a, key_eq b]; exact hne

theorem lookupIdx_eq_none_iff (m : List (Nat × ToolCallAcc)) (k : Nat) :
    lookupIdx m k = none ↔ ∀ p ∈ m, p.1 ≠ k := by
  induction m with
  | nil => simp [lookupIdx]
  | cons kv rest ih => by_cases h : kv.1 = k <;> simp [lookupIdx, h, ih]

theorem keysDistinct_append_single (m : List (Nat × ToolCallAcc)) (k : Nat) (v : ToolCallAcc)
    (h : KeysDistinct m) (hm : lookupIdx m k = none) :
    KeysDistinct (m ++ [(k, v)]) := by
  unfold KeysDistinct at h ⊢
  rw [List.pairwise_append]
  refine ⟨h, List.pairwise_singleton _ _, ?_⟩
  intro p hp q hq
  have : q = (k, v) := by simpa using hq
  subst this
  exact (lookupIdx_eq_none_iff m k).1 hm p hp

theorem keysDistinct_process (m : List (Nat × ToolCallAcc)) (tc : ToolCallFrag)
    (h : KeysDistinct m) : KeysDistinct (processToolCallFrag m tc) := by
  have hu : ∀ (mm : List (Nat × ToolCallAcc)) (c : Prop) [Decidable c]
      (f : ToolCallAcc → ToolCallAcc), KeysDistinct mm →
      KeysDistinct (if c then updateIdx mm tc.index f else mm) := by
    intro mm c _ f hmm
    split
    · exact keysDistinct_updateIdx mm tc.index f hmm
    · exact hmm
  unfold processToolCallFrag
  cases hm : lookupIdx m tc.index with
  | none =>
    exact hu _ _ _ (hu _ _ _ (hu _ _ _ (keysDistinct_append_single m tc.index _ h hm)))
  | some a =>
    exact hu _ _ _ (hu _ _ _ (hu _ _ _ h))

theorem collect_eq_foldFrags (deltas : List Delta) :
    ∀ m, deltas.foldl (fun m d => d.toolCalls.foldl processToolCallFrag m) m =
      (allFrags deltas).foldl processToolCallFrag m := by
  induction deltas with
  | nil => intro m; rfl
  | cons d rest ih =>
    intro m
    rw [List.foldl_cons, ih]
    show _ = List.foldl processToolCallFrag m (d.toolCalls ++ allFrags rest)
    rw [List.foldl_append]

theorem foldFrags_keysDistinct (frs : List ToolCallFrag) :
    ∀ m, KeysDistinct m → KeysDistinct (frs.foldl processToolCallFrag m) := by
  induction frs with
  | nil => intro m h; exact h
  | cons tc rest ih =>
    intro m h
    exact ih _ (keysDistinct_process m tc h)

theorem foldFrags_lookup_isSome (frs : List ToolCallFrag) :
    ∀ m i, (lookupIdx (frs.foldl processToolCallFrag m) i).isSome =
      ((lookupIdx m i).isSome || frs.any fun tc => tc.index = i) := by
  induction frs with
  | nil => intro m i; simp
  | cons tc rest ih =>
    intro m i
    rw [List.foldl_cons, ih]
    by_cases hj : i = tc.index
    · simp [lookupIdx_process, hj]
    · have hj2 : ¬ tc.index = i := fun h => hj h.symm
      simp [lookupIdx_process, hj, hj2]

/-- The argument string of the prior entry, or empty if the index is new. -/
def baseArgs (o : Option ToolCallAcc) : String :=
  match o with
  | some a0 => a0.arguments
  | none => ""

theorem foldFrags_lookup_args (frs : List ToolCallFrag) :
    ∀ m i a, lookupIdx (frs.foldl processToolCallFrag m) i = some a →
      a.arguments = baseArgs (lookupIdx m i) ++ argumentsFor frs i := by
  induction frs with
  | nil =>
    intro m i a h
    rw [List.foldl_nil] at h
    rw [h]
    simp [argumentsFor, concatStrings, baseArgs, string_append_empty]
  | cons tc rest ih =>
    intro m i a h
    rw [List.foldl_cons] at h
    by_cases hj : i = tc.index
    · have hlook : lookupIdx (processToolCallFrag m tc) i =
          some (stepAcc (lookupIdx m tc.index) tc) := by
        rw [lookupIdx_process, if_pos hj]
      have hstep := ih _ i a h
      rw [hlook] at hstep
      simp only [baseArgs] at hstep
      have harg : (stepAcc (lookupIdx m tc.index) tc).arguments =
          baseArgs (lookupIdx m tc.index) ++ tc.arguments := by
        cases hmi : lookupIdx m tc.index <;>
          simp [stepAcc, baseArgs, string_empty_append]
      rw [harg, hj] at hstep
      rw [hj]
      have hfil : argumentsFor (tc :: rest) tc.index =
          tc.arguments ++ argumentsFor rest tc.index := by
        simp [argumentsFor, concatStrings]
      rw [hfil, ← String.append_assoc]
      exact hstep
    · have hlook : lookupIdx (processToolCallFrag m tc) i = lookupIdx m i := by
        rw [lookupIdx_process, if_neg hj]
      have hstep := ih _ i a h
      rw [hlook] at hstep
      have hfil : argumentsFor (tc :: rest) i = argumentsFor rest i := by
        have hne : ¬ tc.index = i := fun h2 => hj h2.symm
        simp [argumentsFor, hne]
      rw [hfil]
      exact hstep

theorem mem_iff_lookupIdx (m : List (Nat × ToolCallAcc)) (h : KeysDistinct m)
    (i : Nat) (a : ToolCallAcc) : (i, a) ∈ m ↔ lookupIdx m i = some a := by
  induction m with
  | nil => simp [lookupIdx]
  | cons kv rest ih =>
    unfold KeysDistinct at h
    rw [List.pairwise_cons] at h
    obtain ⟨hhead, htail⟩ := h
    by_cases hk : kv.1 = i
    · rw [lookupIdx, if_pos hk]
      constructor
      · intro hmem
        rcases List.mem_cons.1 hmem with heq | hmem2
        · subst heq; rfl
        · exact absurd hk (hhead (i, a) hmem2)
      · intro hl
        have ha : kv.2 = a := Option.some.inj hl
        have hkv : kv = (i, a) := by
          cases kv with
          | mk k v =>
            simp only at hk ha
            rw [hk, ha]
        rw [← hkv]
        exact List.mem_cons_self kv rest
    · rw [lookupIdx, if_neg hk]
      have hne : ¬ ((i, a) = kv) := fun heq => hk (by rw [← heq])
      rw [List.mem_cons]
      simp [hne, ih htail]

theorem pairwise_lt_of_sorted_ne (l : List (Nat × ToolCallAcc))
    (hs : l.Sorted idxLE) (hne : l.Pairwise fun p q => p.1 ≠ q.1) :
    l.Pairwise fun p q => p.1 < q.1 := by
  induction l with
  | nil => exact List.Pairwise.nil
  | cons x rest ih =>
    rw [List.sorted_cons] at hs
    rw [List.pairwise_cons] at hne ⊢
    exact ⟨fun q hq => Nat.lt_of_le_of_ne (hs.1 q hq) (hne.1 q hq), ih hs.2 hne.2⟩

/-- C1.  For every sequence of provider deltas consumed by one call of
`AgentRunner._stream_chat`, the finalized tool-call list is sorted by
fragment index in strictly ascending order; for each index the finalized
argument string is the exact concatenation, in arrival order, of the
argument fragments received for that index; an index appears in the
finalized list exactly when at least one fragment arrived for it; and the
assistant message's `tool_calls` field is the per-index projection of that
sorted list. -/
theorem stream_toolcalls_sorted_concat (deltas : List Delta) :
    (finalizeToolCalls deltas).Pairwise (fun p q => p.1 < q.1) ∧
    (∀ i a, (i, a) ∈ finalizeToolCalls deltas →
      a.arguments = argumentsFor (allFrags deltas) i) ∧
    (∀ i, (∃ a, (i, a) ∈ finalizeToolCalls deltas) ↔
      ∃ tc ∈ allFrags deltas, tc.index = i) ∧
    finalToolCallList deltas =
      (finalizeToolCalls deltas).map fun kv => ⟨kv.2.id, kv.2.name, kv.2.arguments⟩ := by
  have hsymm : Symmetric fun p q : Nat × ToolCallAcc => p.1 ≠ q.1 :=
    fun _ _ hab => Ne.symm hab
  have hperm : List.Perm (finalizeToolCalls deltas) (collectToolCalls deltas) :=
    List.perm_insertionSort idxLE _
  have hcoll : collectToolCalls deltas =
      (allFrags deltas).foldl processToolCallFrag [] := by
    rw [collectToolCalls, collect_eq_foldFrags]
  have hkd : KeysDistinct (collectToolCalls deltas) := by
    rw [hcoll]
    exact foldFrags_keysDistinct _ [] List.Pairwise.nil
  have hkdf : KeysDistinct (finalizeToolCalls deltas) := by
    unfold KeysDistinct at hkd ⊢
    exact (hperm.pairwise_iff fun hab => Ne.symm hab).2 hkd
  refine ⟨?_, ?_, ?_, rfl⟩
  · exact pairwise_lt_of_sorted_ne _ (List.sorted_insertionSort idxLE _) hkdf
  · intro i a hmem
    have hmem2 : (i, a) ∈ collectToolCalls deltas := hperm.mem_iff.1 hmem
    have hl : lookupIdx (collectToolCalls deltas) i = some a :=
      (mem_iff_lookupIdx _ hkd i a).1 hmem2
    rw [hcoll] at hl
    have := foldFrags_lookup_args (allFrags deltas) [] i a hl
    rw [this]
    simp [lookupIdx, baseArgs, string_empty_append]
  · intro i
    constructor
    · rintro ⟨a, hmem⟩
      have hmem2 : (i, a) ∈ collectToolCalls deltas := hperm.mem_iff.1 hmem
      have hl : lookupIdx (collectToolCalls deltas) i = some a :=
        (mem_iff_lookupIdx _ hkd i a).1 hmem2
      have hsome : (lookupIdx (collectToolCalls deltas) i).isSome := by
        rw [hl]; rfl
      rw [hcoll, foldFrags_lookup_isSome] at hsome
      simp only [lookupIdx, Option.isSome_none, Bool.false_or] at hsome
      rcases List.any_eq_true.1 hsome with ⟨tc, htc, hp⟩
      exact ⟨tc, htc, of_decide_eq_true hp⟩
    · rintro ⟨tc, htc, hp⟩
      have hany : (allFrags deltas).any (fun tc => tc.index = i) = true :=
        List.any_eq_true.2 ⟨tc, htc, decide_eq_true hp⟩
      have hsome : (lookupIdx (collectToolCalls deltas) i).isSome := by
        rw [hcoll, foldFrags_lookup_isSome]
        simp [lookupIdx, hany]
      rcases Option.isSome_iff_exists.1 hsome with ⟨a, ha⟩
      exact ⟨a, hperm.mem_iff.2 ((mem_iff_lookupIdx _ hkd i a).2 ha)⟩

/-! ## The agent loop (`AgentRunner.handle_input`)

The provider is an oracle mapping the step number to the outcome of one
`_stream_chat` call: plain content, tool calls, a cancellation, or an API
exception.  Messages are modelled by their role and content, which is all
the trim/window claims depend on. -/

structure Msg where
  role : String
  content : String
  deriving DecidableEq, Repr

def DEFAULT_MAX_STEPS : Nat := 15

/-- The `BUILD_MODE_STEPS` dict of `agent_runner.py`. -/
def BUILD_MODE_STEPS (mode : String) : Option Nat :=
  if mode = "fast" then some 8
  else if mode = "balanced" then some DEFAULT_MAX_STEPS
  else if mode = "deep" then some 24
  else none

/-- `AgentRunner.__init__`: `build_mode if build_mode in BUILD_MODE_STEPS
else "balanced"`. -/
def normalizeBuildMode (mode : String) : String :=
  if (BUILD_MODE_STEPS mode).isSome then mode else "balanced"

/-- `BUILD_MODE_STEPS[self.build_mode]`, the runtime's `max_steps`. -/
def runnerMaxSteps (mode : String) : Nat :=
  (BUILD_MODE_STEPS (normalizeBuildMode mode)).getD 0

/-- Python's `l[-k:]` slice (for `k = 0` it is the whole list, not the
empty one). -/
def pySliceLast (k : Nat) (l : List Msg) : List Msg :=
  if k = 0 then l else l.drop (l.length - k)

/-- `AgentRunner._trim_messages`:
`[self.messages[0]] + self.messages[-(max_messages - 1):]` when the list
is longer than `max_history_rounds * 2 + 1`. -/
def trimMessages (maxHistoryRounds : Nat) (messages : List Msg) : List Msg :=
  let maxMessages := maxHistoryRounds * 2 + 1
  if messages.length > maxMessages then
    messages.take 1 ++ pySliceLast (maxMessages - 1) messages
  else messages

/-- Outcome of one `_stream_chat` call as `handle_input` observes it. -/
inductive ProviderResult where
  | reply (content : String)
  | toolUse (content : String) (calls : List String)
  | cancel
  | fail
  deriving DecidableEq, Repr

/-- The `while agent_steps < self.runtime.max_steps` loop of
`handle_input`, running `remaining = max_steps - agent_steps` more
iterations (the loop guard, re-checked each iteration, is equivalent to
`remaining > 0`, and the increment of `agent_steps` to the decrement of
`remaining`).  Returns the final `agent_steps`, the final message list and
the history passed to the provider at each step.  On tool calls one
assistant message plus one tool message per call is appended and the loop
continues; on plain content the assistant message is appended and the loop
breaks; on cancellation or an API error the loop breaks without appending. -/
def agentLoopAux (oracle : Nat → ProviderResult) (toolResult : String → String) :
    Nat → Nat → List Msg → Nat × List Msg × List (List Msg)
  | 0, steps, messages => (steps, messages, [])
  | remaining + 1, steps, messages =>
    let s := steps + 1
    match oracle s with
    | .cancel => (s, messages, [messages])
    | .fail => (s, messages, [messages])
    | .reply c => (s, messages ++ [⟨"assistant", c⟩], [messages])
    | .toolUse c calls =>
      let messages2 := (messages ++ [⟨"assistant", c⟩]) ++
        calls.map fun callId => ⟨"tool", toolResult callId⟩
      let r := agentLoopAux oracle toolResult remaining s messages2
      (r.1, r.2.1, messages :: r.2.2)

def agentLoop (oracle : Nat → ProviderResult) (toolResult : String → String)
    (maxSteps steps : Nat) (messages : List Msg) :
    Nat × List Msg × List (List Msg) :=
  agentLoopAux oracle toolResult (maxSteps - steps) steps messages

/-- `handle_input` on a non-command user input: append the user message,
trim once, then run the step loop. -/
def handleInputSim (maxHistoryRounds maxSteps : Nat) (messages0 : List Msg)
    (userText : String) (oracle : Nat → ProviderResult)
    (toolResult : String → String) : Nat × List Msg × List (List Msg) :=
  let m1 := messages0 ++ [⟨"user", userText⟩]
  let m2 := trimMessages maxHistoryRounds m1
  agentLoop oracle toolResult maxSteps 0 m2

theorem agentLoopAux_steps_all_tools (oracle : Nat → ProviderResult)
    (toolResult : String → String)
    (hall : ∀ n, ∃ c calls, oracle n = ProviderResult.toolUse c calls) :
    ∀ remaining steps messages,
      (agentLoopAux oracle toolResult remaining steps messages).1 =
        steps + remaining := by
  intro remaining
  induction remaining with
  | zero => intro steps messages; rfl
  | succ n ih =>
    intro steps messages
    obtain ⟨c, calls, hc⟩ := hall (steps + 1)
    rw [agentLoopAux, hc]
    simp only
    rw [ih]
    omega

/-- C2.  If the provider requests tool calls on every step (and no error
or cancellation occurs), `handle_input` runs the loop for exactly the step
ceiling of the configured build mode and then stops; the ceilings are
fast = 8, balanced = 15, deep = 24. -/
theorem handle_input_step_ceiling (mode : String) (maxHistoryRounds : Nat)
    (messages0 : List Msg) (userText : String) (oracle : Nat → ProviderResult)
    (toolResult : String → String)
    (hall : ∀ n, ∃ c calls, oracle n = ProviderResult.toolUse c calls) :
    (handleInputSim maxHistoryRounds (runnerMaxSteps mode) messages0 userText
        oracle toolResult).1 = runnerMaxSteps mode ∧
    runnerMaxSteps "fast" = 8 ∧ runnerMaxSteps "balanced" = 15 ∧
    runnerMaxSteps "deep" = 24 := by
  refine ⟨?_, rfl, rfl, rfl⟩
  unfold handleInputSim agentLoop
  rw [agentLoopAux_steps_all_tools oracle toolResult hall]
  omega

theorem handle_input_step_ceiling_witness :
    (handleInputSim 30 (runnerMaxSteps "fast") [⟨"system", "s"⟩] "hi"
        (fun _ => ProviderResult.toolUse "" ["a"]) (fun _ => "r")).1 =
      runnerMaxSteps "fast" ∧
    runnerMaxSteps "fast" = 8 ∧ runnerMaxSteps "balanced" = 15 ∧
    runnerMaxSteps "deep" = 24 :=
  handle_input_step_ceiling "fast" 30 [⟨"system", "s"⟩] "hi"
    (fun _ => ProviderResult.toolUse "" ["a"]) (fun _ => "r")
    (fun _ => ⟨"", ["a"], rfl⟩)

theorem trimMessages_length_le (R : Nat) (hR : 1 ≤ R) (l : List Msg) :
    (trimMessages R l).length ≤ 2 * R + 1 := by
  simp only [trimMessages, pySliceLast]
  split_ifs with h1 h2
  · omega
  · simp only [List.length_append, List.length_take, List.length_drop]
    omega
  · omega

theorem trimMessages_head (R : Nat) (l : List Msg) :
    (trimMessages R l).head? = l.head? := by
  simp only [trimMessages, pySliceLast]
  split_ifs with h1 h2
  · cases l with
    | nil => rfl
    | cons a t => rfl
  · cases l with
    | nil => simp at h1
    | cons a t => rfl
  · rfl

theorem agentLoopAux_first_history (oracle : Nat → ProviderResult)
    (toolResult : String → String) (remaining steps : Nat) (messages : List Msg)
    (h : 0 < remaining) :
    (agentLoopAux oracle toolResult remaining steps messages).2.2.head? =
      some messages := by
  cases remaining with
  | zero => omega
  | succ n =>
    cases hoc : oracle (steps + 1) <;> simp [agentLoopAux, hoc]

/-- C9 (amended).  The history is trimmed once per user turn — right after
the user message is appended and before the first provider call of the
turn — so the history of the FIRST provider call of each turn has at most
`2 * max_history_rounds + 1` messages and keeps the original system
message first (`max_history_rounds ≥ 1` as enforced by
`AgentRunner.__init__`).  Later steps of the same turn are not re-trimmed
(see the counterexample). -/
theorem first_provider_history_bounded (R S : Nat) (hR : 1 ≤ R) (hS : 0 < S)
    (sys : Msg) (rest : List Msg) (userText : String)
    (oracle : Nat → ProviderResult) (toolResult : String → String) :
    ∃ h, (handleInputSim R S (sys :: rest) userText oracle
        toolResult).2.2.head? = some h ∧
      h.length ≤ 2 * R + 1 ∧ h.head? = some sys := by
  refine ⟨trimMessages R ((sys :: rest) ++ [⟨"user", userText⟩]), ?_, ?_, ?_⟩
  · unfold handleInputSim agentLoop
    exact agentLoopAux_first_history _ _ _ _ _ (by omega)
  · exact trimMessages_length_le R hR _
  · rw [trimMessages_head]
    rfl

theorem first_provider_history_bounded_witness :
    ∃ h, (handleInputSim 1 15 [⟨"system", "s"⟩] "u"
        (fun _ => ProviderResult.reply "ok") (fun _ => "r")).2.2.head? = some h ∧
      h.length ≤ 2 * 1 + 1 ∧ h.head? = some ⟨"system", "s"⟩ :=
  first_provider_history_bounded 1 15 (by decide) (by decide) ⟨"system", "s"⟩ []
    "u" (fun _ => ProviderResult.reply "ok") (fun _ => "r")

def trimCexOracle : Nat → ProviderResult := fun n =>
  if n = 1 then ProviderResult.toolUse "" ["a", "b"] else ProviderResult.reply "Done."

/-- C9 is false as stated: with `max_history_rounds = 1` (window bound
`2 * 1 + 1 = 3`), a first step returning two tool calls makes the second
provider call see a 5-message history — `_trim_messages` runs once per
turn, not before every step. -/
theorem trim_per_step_counterexample :
    ∃ h ∈ (handleInputSim 1 15 [⟨"system", "s"⟩] "u" trimCexOracle
        fun _ => "r").2.2, 2 * 1 + 1 < h.length := by
  refine ⟨[⟨"system", "s"⟩, ⟨"user", "u"⟩, ⟨"assistant", ""⟩, ⟨"tool", "r"⟩,
    ⟨"tool", "r"⟩], ?_, by decide⟩
  decide

/-! ## Approval tickets (`api/approvals.py`) and `call_tool` (`api/executor.py`)

Argument snapshots are an opaque type with decidable equality, standing for
the Python dict of arguments that the source compares with `!=`.  Wall-clock
time is an explicit `now : Nat`; `uuid4().hex[:16]` is an explicit `freshId`
oracle.  The `preview` and `duration_ms` response fields (pure rendering of
the arguments and of elapsed wall-clock time) are not modelled. -/

structure Ticket (Args : Type) where
  tool : String
  args : Args
  actor : String
  createdAt : Nat
  expiresAt : Nat
  deriving DecidableEq, Repr

structure ApprovalStoreState (Args : Type) where
  ttlSeconds : Nat
  items : List (String × Ticket Args)
  deriving DecidableEq, Repr

/-- First-match lookup in the ticket map (Python dict lookup). -/
def lookupTicket {Args : Type} : List (String × Ticket Args) → String → Option (Ticket Args)
  | [], _ => none
  | kv :: rest, k => if kv.1 = k then some kv.2 else lookupTicket rest k

/-- `_cleanup_locked`: drop every ticket with `expires_at <= now`. -/
def cleanupLocked {Args : Type} (now : Nat) (items : List (String × Ticket Args)) :
    List (String × Ticket Args) :=
  items.filter fun kv => !decide (kv.2.expiresAt ≤ now)

/-- Python dict assignment `self._items[approval_id] = {...}`: replace the
existing entry, or append a new one. -/
def storeInsert {Args : Type} (items : List (String × Ticket Args)) (k : String)
    (t : Ticket Args) : List (String × Ticket Args) :=
  if (lookupTicket items k).isSome then
    items.map fun kv => if kv.1 = k then (k, t) else kv
  else items ++ [(k, t)]

namespace ApprovalStore

/-- `ApprovalStore.create`: cleanup, then store a fresh ticket expiring at
`now + ttl_seconds`; returns the new store and the generated id. -/
def create {Args : Type} (st : ApprovalStoreState Args) (now : Nat) (newId : String)
    (tool : String) (args : Args) (actor : String) : ApprovalStoreState Args × String :=
  let items := cleanupLocked now st.items
  ({ st with items := storeInsert items newId ⟨tool, args, actor, now, now + st.ttlSeconds⟩ },
   newId)

/-- `ApprovalStore.pop`: cleanup, then remove and return the ticket under
`approval_id` (or `none` when absent/expired). -/
def pop {Args : Type} (st : ApprovalStoreState Args) (now : Nat) (approvalId : String) :
    Option (Ticket Args) × ApprovalStoreState Args :=
  let items := cleanupLocked now st.items
  (lookupTicket items approvalId,
   { st with items := items.filter fun kv => decide (kv.1 ≠ approvalId) })

end ApprovalStore

inductive CallStatus where
  | ok
  | needsApproval
  | error
  deriving DecidableEq, Repr

structure ToolCallResponse where
  success : Bool
  status : CallStatus
  tool : String
  result : Option String := none
  error : Option String := none
  approvalId : Option String := none
  deriving DecidableEq, Repr

/-- `{tool, args, dry_run, confirm, approval_id, actor}`; the source tests
`approval_id` for truthiness, so Python `None` is the empty string here. -/
structure ApprovalPayload where
  dryRun : Bool := false
  confirm : Bool := false
  approvalId : String := ""
  actor : String := "ui"
  deriving DecidableEq, Repr

structure CallToolOutcome (Args : Type) where
  resp : ToolCallResponse
  store : ApprovalStoreState Args
  executed : Bool
  deriving DecidableEq, Repr

/-- `executor.call_tool`.  `executed` records whether the tool callable was
invoked (the `available_functions[tool](**args)` line was reached). -/
def call_tool {Args : Type} [DecidableEq Args]
    (availableFunctions : String → Option (Args → Except String String))
    (riskyTools : List String) (store : ApprovalStoreState Args) (now : Nat)
    (freshId : String) (tool : String) (args : Args) (approval : ApprovalPayload) :
    CallToolOutcome Args :=
  match availableFunctions tool with
  | none =>
    ⟨⟨false, .error, tool, none, some ("Tool not found: " ++ tool), none⟩, store, false⟩
  | some f =>
    let runTool : ApprovalStoreState Args → CallToolOutcome Args := fun st =>
      match f args with
      | .ok r => ⟨⟨true, .ok, tool, some r, none, none⟩, st, true⟩
      | .error e => ⟨⟨false, .error, tool, none, some e, none⟩, st, true⟩
    if tool ∈ riskyTools then
      if approval.dryRun || !approval.confirm then
        let created := ApprovalStore.create store now freshId tool args approval.actor
        ⟨⟨false, .needsApproval, tool, some "Approval required before execution.",
          none, some created.2⟩, created.1, false⟩
      else if approval.approvalId = "" then
        ⟨⟨false, .error, tool, none,
          some "Missing approval_id for risky tool confirmation.", none⟩, store, false⟩
      else
        match ApprovalStore.pop store now approval.approvalId with
        | (none, st1) =>
          ⟨⟨false, .error, tool, none,
            some "Approval ticket not found or expired.", none⟩, st1, false⟩
        | (some t, st1) =>
          if t.tool ≠ tool then
            ⟨⟨false, .error, tool, none, some "Approval ticket tool mismatch.", none⟩,
              st1, false⟩
          else if t.args ≠ args then
            ⟨⟨false, .error, tool, none,
              some "Approval ticket args mismatch. Re-run dry-run to get a fresh ticket.",
              none⟩, st1, false⟩
          else runTool st1
    else runTool store

theorem lookupTicket_filter_ne {Args : Type} (items : List (String × Ticket Args))
    (k : String) :
    lookupTicket (items.filter fun kv => decide (kv.1 ≠ k)) k = none := by
  induction items with
  | nil => rfl
  | cons kv rest ih =>
    by_cases hk : kv.1 = k
    · simpa [List.filter, hk] using ih
    · simpa [List.filter, hk, lookupTicket] using ih

/-- C3.  Creating an approval ticket via a dry-run `call_tool` and then
confirming with `confirm=true`, the returned `approval_id` and identical
tool name and arguments executes the tool with status `ok`; a second
confirmation with the same `approval_id` fails with the ticket-not-found
error and does not execute the tool.  (`t1 < t0 + ttl`: the confirm
happens before the ticket expires; the generated id is non-empty, as
`uuid4().hex[:16]` always is.) -/
theorem approval_ticket_roundtrip {Args : Type} [DecidableEq Args]
    (af : String → Option (Args → Except String String)) (riskyTools : List String)
    (ttl t0 t1 t2 : Nat) (freshId fresh2 fresh3 tool actor : String) (args : Args)
    (f : Args → Except String String) (r : String)
    (hf : af tool = some f) (hrisky : tool ∈ riskyTools) (hr : f args = .ok r)
    (hfresh : freshId ≠ "") (ht1 : t1 < t0 + ttl) :
    let store0 : ApprovalStoreState Args := ⟨ttl, []⟩
    let step1 := call_tool af riskyTools store0 t0 freshId tool args
      ⟨true, false, "", actor⟩
    let step2 := call_tool af riskyTools step1.store t1 fresh2 tool args
      ⟨false, true, freshId, actor⟩
    let step3 := call_tool af riskyTools step2.store t2 fresh3 tool args
      ⟨false, true, freshId, actor⟩
    step1.resp.status = CallStatus.needsApproval ∧
    step1.resp.approvalId = some freshId ∧
    step1.executed = false ∧
    step2.resp.status = CallStatus.ok ∧
    step2.resp.result = some r ∧
    step2.executed = true ∧
    step3.resp.status = CallStatus.error ∧
    step3.resp.error = some "Approval ticket not found or expired." ∧
    step3.executed = false := by
  have hkeep : ¬ (t0 + ttl ≤ t1) := by omega
  simp [call_tool, ApprovalStore.create, ApprovalStore.pop, cleanupLocked,
    storeInsert, lookupTicket, hf, hrisky, hr, hfresh, hkeep]

theorem approval_ticket_roundtrip_witness :
    let store0 : ApprovalStoreState (List (String × String)) := ⟨600, []⟩
    let af : String → Option (List (String × String) → Except String String) :=
      fun name => if name = "write_file" then some (fun _ => Except.ok "done") else none
    let step1 := call_tool af ["write_file"] store0 0 "id1" "write_file"
      [("path", "a")] ⟨true, false, "", "ui"⟩
    let step2 := call_tool af ["write_file"] step1.store 10 "id2" "write_file"
      [("path", "a")] ⟨false, true, "id1", "ui"⟩
    let step3 := call_tool af ["write_file"] step2.store 20 "id3" "write_file"
      [("path", "a")] ⟨false, true, "id1", "ui"⟩
    step1.resp.status = CallStatus.needsApproval ∧
    step1.resp.approvalId = some "id1" ∧
    step1.executed = false ∧
    step2.resp.status = CallStatus.ok ∧
    step2.resp.result = some "done" ∧
    step2.executed = true ∧
    step3.resp.status = CallStatus.error ∧
    step3.resp.error = some "Approval ticket not found or expired." ∧
    step3.executed = false :=
  approval_ticket_roundtrip
    (fun name => if name = "write_file" then some (fun _ => Except.ok "done") else none)
    ["write_file"] 600 0 10 20 "id1" "id2" "id3" "write_file" "ui" [("path", "a")]
    (fun _ => Except.ok "done") "done" rfl (by decide) rfl (by decide)
    (by decide)

/-- C4 is false as stated: a confirm that fails the argument-match check
does NOT leave the ticket in the store.  `call_tool` pops the ticket
before comparing tool and arguments, so this mismatched confirm returns
the args-mismatch error yet the ticket is gone afterwards. -/
theorem mismatch_consumes_ticket_counterexample :
    let t : Ticket (List (String × String)) := ⟨"write_file", [("path", "a")], "ui", 0, 600⟩
    let st : ApprovalStoreState (List (String × String)) := ⟨600, [("id1", t)]⟩
    let af : String → Option (List (String × String) → Except String String) :=
      fun name => if name = "write_file" then some (fun _ => Except.ok "done") else none
    let out := call_tool af ["write_file"] st 10 "fresh" "write_file"
      [("path", "b")] ⟨false, true, "id1", "ui"⟩
    out.resp.status = CallStatus.error ∧
    out.resp.error = some "Approval ticket args mismatch. Re-run dry-run to get a fresh ticket." ∧
    out.executed = false ∧
    lookupTicket out.store.items "id1" = none := by
  decide

/-- C4 (amended).  A confirm whose `approval_id` resolves to a live ticket
always consumes (removes) it — the pop happens before the match checks —
and the tool callable is invoked on that confirm exactly when the request's
tool name and argument snapshot equal the ticket's. -/
theorem confirm_consumes_ticket {Args : Type} [DecidableEq Args]
    (af : String → Option (Args → Except String String)) (riskyTools : List String)
    (store : ApprovalStoreState Args) (now : Nat) (freshId tool actor approvalId : String)
    (args : Args) (t : Ticket Args) (st1 : ApprovalStoreState Args)
    (f : Args → Except String String)
    (hf : af tool = some f) (hrisky : tool ∈ riskyTools) (hid : ¬ approvalId = "")
    (hpop : ApprovalStore.pop store now approvalId = (some t, st1)) :
    let out := call_tool af riskyTools store now freshId tool args
      ⟨false, true, approvalId, actor⟩
    lookupTicket out.store.items approvalId = none ∧
    (out.executed = true ↔ t.tool = tool ∧ t.args = args) := by
  have hst1 : st1.items =
      (cleanupLocked now store.items).filter fun kv => decide (kv.1 ≠ approvalId) := by
    have := congrArg Prod.snd hpop
    simp only [ApprovalStore.pop] at this
    rw [← this]
  have hnone : lookupTicket st1.items approvalId = none := by
    rw [hst1]; exact lookupTicket_filter_ne _ _
  simp only [call_tool, hf, hrisky, if_true, hid, hpop]
  by_cases htool : t.tool = tool
  · by_cases hargs : t.args = args
    · simp only [htool, hargs]
      cases hrun : f args <;> simp [hrun, hnone, htool, hargs, hrisky, hid]
    · simp [htool, hargs, hnone, hrisky, hid]
  · simp [htool, hnone, hrisky, hid]

theorem confirm_consumes_ticket_witness :
    let t : Ticket (List (String × String)) := ⟨"write_file", [("path", "a")], "ui", 0, 600⟩
    let st : ApprovalStoreState (List (String × String)) := ⟨600, [("id1", t)]⟩
    let af : String → Option (List (String × String) → Except String String) :=
      fun name => if name = "write_file" then some (fun _ => Except.ok "done") else none
    let out := call_tool af ["write_file"] st 10 "fresh" "write_file"
      [("path", "b")] ⟨false, true, "id1", "ui"⟩
    lookupTicket out.store.items "id1" = none ∧
    (out.executed = true ↔
      (⟨"write_file", [("path", "a")], "ui", 0, 600⟩ : Ticket (List (String × String))).tool
        = "write_file" ∧
      (⟨"write_file", [("path", "a")], "ui", 0, 600⟩ : Ticket (List (String × String))).args
        = [("path", "b")]) :=
  confirm_consumes_ticket
    (fun name => if name = "write_file" then some (fun _ => Except.ok "done") else none)
    ["write_file"] ⟨600, [("id1", ⟨"write_file", [("path", "a")], "ui", 0, 600⟩)]⟩ 10
    "fresh" "write_file" "ui" "id1" [("path", "b")]
    ⟨"write_file", [("path", "a")], "ui", 0, 600⟩ ⟨600, []⟩
    (fun _ => Except.ok "done") rfl (by decide) (by decide) (by decide)

/-- C6.  Confirming a risky tool with a live ticket for the same tool but
any different argument snapshot returns the distinguishable args-mismatch
error and never invokes the tool callable. -/
theorem args_mismatch_never_executes {Args : Type} [DecidableEq Args]
    (af : String → Option (Args → Except String String)) (riskyTools : List String)
    (store : ApprovalStoreState Args) (now : Nat) (freshId tool actor approvalId : String)
    (args : Args) (t : Ticket Args) (st1 : ApprovalStoreState Args)
    (f : Args → Except String String)
    (hf : af tool = some f) (hrisky : tool ∈ riskyTools) (hid : ¬ approvalId = "")
    (hpop : ApprovalStore.pop store now approvalId = (some t, st1))
    (htool : t.tool = tool) (hargs : ¬ t.args = args) :
    let out := call_tool af riskyTools store now freshId tool args
      ⟨false, true, approvalId, actor⟩
    out.resp.status = CallStatus.error ∧
    out.resp.error = some "Approval ticket args mismatch. Re-run dry-run to get a fresh ticket." ∧
    out.executed = false := by
  simp [call_tool, hf, hrisky, hid, hpop, htool, hargs]

theorem args_mismatch_never_executes_witness :
    let t : Ticket (List (String × String)) := ⟨"write_file", [("path", "a")], "ui", 0, 600⟩
    let st : ApprovalStoreState (List (String × String)) := ⟨600, [("id1", t)]⟩
    let af : String → Option (List (String × String) → Except String String) :=
      fun name => if name = "write_file" then some (fun _ => Except.ok "done") else none
    let out := call_tool af ["write_file"] st 10 "fresh" "write_file"
      [("path", "b")] ⟨false, true, "id1", "ui"⟩
    out.resp.status = CallStatus.error ∧
    out.resp.error = some "Approval ticket args mismatch. Re-run dry-run to get a fresh ticket." ∧
    out.executed = false :=
  args_mismatch_never_executes
    (fun name => if name = "write_file" then some (fun _ => Except.ok "done") else none)
    ["write_file"] ⟨600, [("id1", ⟨"write_file", [("path", "a")], "ui", 0, 600⟩)]⟩ 10
    "fresh" "write_file" "ui" "id1" [("path", "b")]
    ⟨"write_file", [("path", "a")], "ui", 0, 600⟩ ⟨600, []⟩
    (fun _ => Except.ok "done") rfl (by decide) (by decide) (by decide)
    (by decide) (by decide)

/-! ## Tool dispatch with retries (`AgentRunner._run_tool_calls`)

The callable is modelled as a function of the attempt number, since
successive invocations of `available_functions[func_name](**args)` hit
external state and may fail transiently.  `json.loads` is an explicit
parameter returning `none` on a `JSONDecodeError`; Python dict truthiness
(`if should_run and new_args:`) is the explicit `truthyArgs`. -/

/-- Python `str(result)` for a result that may still be `None`. -/
def optStr : Option String → String
  | none => "None"
  | some s => s

structure ToolMsg where
  role : String
  toolCallId : String
  name : String
  content : String
  deriving DecidableEq, Repr

/-- The `while retries < self.max_tool_retries` retry loop, running
`remaining = max_tool_retries - retries` more iterations (the guard is
re-checked each iteration; an exception increments `retries` and, once
`retries >= max_tool_retries`, the result becomes the error-tagged string).
Returns the result and the number of invocations of the callable. -/
def retryLoopAux (call : Nat → Except String String) (maxToolRetries : Nat) :
    Nat → Nat → Option String × Nat
  | 0, retries => (none, retries)
  | _remaining + 1, retries =>
    match call retries with
    | .ok r => (some r, retries + 1)
    | .error e =>
      if maxToolRetries ≤ retries + 1 then
        (some ("Error (已重试" ++ toString maxToolRetries ++ "次): " ++ e), retries + 1)
      else retryLoopAux call maxToolRetries _remaining (retries + 1)

def retryLoop (call : Nat → Except String String) (maxToolRetries : Nat) :
    Option String × Nat :=
  retryLoopAux call maxToolRetries maxToolRetries 0

structure ToolDispatchOutcome (Args : Type) where
  result : Option String
  invocations : Nat
  argsUsed : Option Args
  toolMessage : ToolMsg

/-- The `try: args = json.loads(...) except json.JSONDecodeError: args = {}`
block of `_run_tool_calls`. -/
def parsedArgs {Args : Type} (jsonParse : String → Option Args) (emptyArgs : Args)
    (tc : ToolCallEntry) : Args :=
  match jsonParse tc.arguments with
  | some a => a
  | none => emptyArgs

/-- One iteration of the `for tc in tool_calls:` body of `_run_tool_calls`:
parse the raw argument text (empty dict on a JSON decode error), run
`_approve`, dispatch with retries when approved and registered, and build
the tool message appended to `self.messages`. -/
def runToolCall {Args : Type}
    (availableFunctions : String → Option (Args → Nat → Except String String))
    (riskyTools : List String) (autoApproveRisky : Bool)
    (approvalCallback : Option (String → Args → Bool × Option String × Option Args))
    (jsonParse : String → Option Args) (emptyArgs : Args) (truthyArgs : Args → Bool)
    (maxToolRetries : Nat) (tc : ToolCallEntry) : ToolDispatchOutcome Args :=
  let funcName := tc.name
  let args0 := parsedArgs jsonParse emptyArgs tc
  let approve : Bool × Option String × Option Args :=
    if funcName ∈ riskyTools then
      if autoApproveRisky then (true, none, some args0)
      else match approvalCallback with
        | some cb => cb funcName args0
        | none => (false, some "🚫 高风险工具需要审批（可用 /approve on 临时自动批准）。", none)
    else (true, none, some args0)
  let shouldRun := approve.1
  let args1 := match approve.2.2 with
    | some newArgs => if shouldRun && truthyArgs newArgs then newArgs else args0
    | none => args0
  let dispatched : Option String × Nat × Option Args :=
    if shouldRun then
      match availableFunctions funcName with
      | some f =>
        let rl := retryLoop (f args1) maxToolRetries
        (rl.1, rl.2, some args1)
      | none => (some ("Error: Tool " ++ funcName ++ " not found"), 0, none)
    else (approve.2.1, 0, none)
  ⟨dispatched.1, dispatched.2.1, dispatched.2.2,
    ⟨"tool", tc.id, funcName, optStr dispatched.1⟩⟩

theorem retryLoopAux_ok (call : Nat → Except String String) (maxToolRetries : Nat) :
    ∀ k retries r, retries + k + 1 ≤ maxToolRetries →
      (∀ j, retries ≤ j → j < retries + k → ∃ e, call j = .error e) →
      call (retries + k) = .ok r →
      retryLoopAux call maxToolRetries (maxToolRetries - retries) retries =
        (some r, retries + k + 1) := by
  intro k
  induction k with
  | zero =>
    intro retries r hle hfail hok
    rw [Nat.add_zero] at hok
    have hrem : maxToolRetries - retries = (maxToolRetries - (retries + 1)) + 1 := by
      omega
    rw [hrem, retryLoopAux, hok]
  | succ k ih =>
    intro retries r hle hfail hok
    obtain ⟨e, he⟩ := hfail retries (Nat.le_refl _) (by omega)
    have hrem : maxToolRetries - retries = (maxToolRetries - (retries + 1)) + 1 := by
      omega
    rw [hrem, retryLoopAux, he]
    dsimp only
    have hnotlast : ¬ (maxToolRetries ≤ retries + 1) := by omega
    rw [if_neg hnotlast]
    have hok2 : call (retries + 1 + k) = .ok r := by
      rw [show retries + 1 + k = retries + (k + 1) from by omega]
      exact hok
    have := ih (retries + 1) r (by omega)
      (fun j hj1 hj2 => hfail j (by omega) (by omega)) hok2
    rw [this]
    rw [show retries + 1 + k + 1 = retries + (k + 1) + 1 from by omega]

theorem retryLoopAux_fail (call : Nat → Except String String) (maxToolRetries : Nat)
    (hall : ∀ n, ∃ e, call n = .error e) :
    ∀ fuel retries, maxToolRetries - retries = fuel + 1 → retries < maxToolRetries →
      ∃ e, call (maxToolRetries - 1) = .error e ∧
        retryLoopAux call maxToolRetries (maxToolRetries - retries) retries =
          (some ("Error (已重试" ++ toString maxToolRetries ++ "次): " ++ e),
            maxToolRetries) := by
  intro fuel
  induction fuel with
  | zero =>
    intro retries hrem hlt
    obtain ⟨e, he⟩ := hall retries
    have hlast : retries = maxToolRetries - 1 := by omega
    refine ⟨e, by rw [← hlast]; exact he, ?_⟩
    rw [hrem, retryLoopAux, he]
    dsimp only
    rw [if_pos (show maxToolRetries ≤ retries + 1 by omega)]
    rw [show retries + 1 = maxToolRetries from by omega]
  | succ n ih =>
    intro retries hrem hlt
    obtain ⟨e, he⟩ := hall retries
    obtain ⟨e2, he2, hres⟩ := ih (retries + 1) (by omega) (by omega)
    refine ⟨e2, he2, ?_⟩
    rw [hrem, retryLoopAux, he]
    dsimp only
    rw [if_neg (show ¬ maxToolRetries ≤ retries + 1 by omega)]
    rw [show maxToolRetries - (retries + 1) = n + 1 from by omega] at hres
    exact hres

theorem retryLoopAux_invocations_ge (call : Nat → Except String String)
    (maxToolRetries : Nat) :
    ∀ remaining retries,
      retries ≤ (retryLoopAux call maxToolRetries remaining retries).2 := by
  intro remaining
  induction remaining with
  | zero => intro retries; exact Nat.le_refl _
  | succ n ih =>
    intro retries
    rw [retryLoopAux]
    cases call retries with
    | ok r => exact Nat.le_succ _
    | error e =>
      dsimp only
      by_cases hl : maxToolRetries ≤ retries + 1
      · rw [if_pos hl]; exact Nat.le_succ _
      · rw [if_neg hl]
        exact Nat.le_trans (Nat.le_succ _) (ih (retries + 1))

theorem retryLoop_invocations_pos (call : Nat → Except String String)
    (maxToolRetries : Nat) (h : 0 < maxToolRetries) :
    0 < (retryLoop call maxToolRetries).2 := by
  unfold retryLoop
  cases hm : maxToolRetries with
  | zero => omega
  | succ m =>
    rw [retryLoopAux]
    cases call 0 with
    | ok r => exact Nat.zero_lt_succ _
    | error e =>
      dsimp only
      by_cases hl : Nat.succ m ≤ 0 + 1
      · rw [if_pos hl]; exact Nat.zero_lt_succ _
      · rw [if_neg hl]
        exact Nat.lt_of_lt_of_le (Nat.zero_lt_succ 0)
          (retryLoopAux_invocations_ge call (Nat.succ m) m (0 + 1))

theorem runToolCall_nonrisky {Args : Type}
    (af : String → Option (Args → Nat → Except String String))
    (riskyTools : List String) (autoApproveRisky : Bool)
    (cb : Option (String → Args → Bool × Option String × Option Args))
    (jsonParse : String → Option Args) (emptyArgs : Args) (truthyArgs : Args → Bool)
    (maxToolRetries : Nat) (tc : ToolCallEntry) (f : Args → Nat → Except String String)
    (hf : af tc.name = some f) (hnr : tc.name ∉ riskyTools) :
    runToolCall af riskyTools autoApproveRisky cb jsonParse emptyArgs truthyArgs
        maxToolRetries tc =
      ⟨(retryLoop (f (parsedArgs jsonParse emptyArgs tc)) maxToolRetries).1,
       (retryLoop (f (parsedArgs jsonParse emptyArgs tc)) maxToolRetries).2,
       some (parsedArgs jsonParse emptyArgs tc),
       ⟨"tool", tc.id, tc.name,
        optStr (retryLoop (f (parsedArgs jsonParse emptyArgs tc)) maxToolRetries).1⟩⟩ := by
  simp [runToolCall, hf, hnr]

/-- C5.  For a registered non-risky tool: (1) if the callable raises on the
first `k` invocations and succeeds on invocation `k + 1` with
`k + 1 ≤ max_tool_retries`, `_run_tool_calls` records the successful
result (`k + 1 = K` invocations); (2) if the callable always raises, the
callable is invoked exactly `max_tool_retries` times and the tool message
appended to the message list carries the error-tagged string (the
exception is converted, never propagated — the embedding is a total
function whose result is that string). -/
theorem tool_retry_semantics {Args : Type}
    (af : String → Option (Args → Nat → Except String String))
    (riskyTools : List String) (autoApproveRisky : Bool)
    (cb : Option (String → Args → Bool × Option String × Option Args))
    (jsonParse : String → Option Args) (emptyArgs : Args) (truthyArgs : Args → Bool)
    (maxToolRetries : Nat) (tc : ToolCallEntry) (f : Args → Nat → Except String String)
    (hf : af tc.name = some f) (hnr : tc.name ∉ riskyTools) :
    let args := parsedArgs jsonParse emptyArgs tc
    let out := runToolCall af riskyTools autoApproveRisky cb jsonParse emptyArgs
      truthyArgs maxToolRetries tc
    (∀ k r, k + 1 ≤ maxToolRetries →
      (∀ j, j < k → ∃ e, f args j = .error e) → f args k = .ok r →
      out.result = some r ∧ out.invocations = k + 1 ∧
        out.toolMessage.content = r) ∧
    (0 < maxToolRetries → (∀ n, ∃ e, f args n = .error e) →
      out.invocations = maxToolRetries ∧
      ∃ e, f args (maxToolRetries - 1) = .error e ∧
        out.result = some ("Error (已重试" ++ toString maxToolRetries ++ "次): " ++ e) ∧
        out.toolMessage.content =
          "Error (已重试" ++ toString maxToolRetries ++ "次): " ++ e) := by
  intro args out
  have hrt := runToolCall_nonrisky af riskyTools autoApproveRisky cb jsonParse
    emptyArgs truthyArgs maxToolRetries tc f hf hnr
  constructor
  · intro k r hk hfail hok
    have hrl := retryLoopAux_ok (f args) maxToolRetries k 0 r (by omega)
      (fun j hj1 hj2 => hfail j (by omega)) (by simpa using hok)
    have hloop : retryLoop (f args) maxToolRetries = (some r, k + 1) := by
      unfold retryLoop
      simpa using hrl
    refine ⟨?_, ?_, ?_⟩ <;> simp [out, hrt, hloop, optStr]
  · intro hpos hall
    obtain ⟨e, he, hres⟩ := retryLoopAux_fail (f args) maxToolRetries hall
      (maxToolRetries - 1) 0 (by omega) (by omega)
    have hloop : retryLoop (f args) maxToolRetries =
        (some ("Error (已重试" ++ toString maxToolRetries ++ "次): " ++ e),
          maxToolRetries) := by
      unfold retryLoop
      simpa using hres
    refine ⟨?_, e, he, ?_, ?_⟩ <;> simp [out, hrt, hloop, optStr]

theorem tool_retry_semantics_witness :
    let af : String → Option (List (String × String) → Nat → Except String String) :=
      fun name => if name = "echo" then
        some (fun _ k => if k = 0 then Except.error "boom" else Except.ok "hi")
      else none
    let tc : ToolCallEntry := ⟨"call1", "echo", "not json"⟩
    let args := parsedArgs (fun _ => some []) ([] : List (String × String)) tc
    let out := runToolCall af ["write_file"] false none (fun _ => some [])
      ([] : List (String × String)) (fun l => !l.isEmpty) 3 tc
    (∀ k r, k + 1 ≤ 3 →
      (∀ j, j < k → ∃ e,
        (fun _ k => if k = 0 then Except.error "boom" else Except.ok "hi") args j
          = .error e) →
      (fun _ k => if k = 0 then Except.error "boom" else Except.ok "hi") args k
          = .ok r →
      out.result = some r ∧ out.invocations = k + 1 ∧
        out.toolMessage.content = r) ∧
    (0 < 3 → (∀ n, ∃ e,
        (fun _ k => if k = 0 then Except.error "boom" else Except.ok "hi") args n
          = .error e) →
      out.invocations = 3 ∧
      ∃ e, (fun _ k => if k = 0 then Except.error "boom" else Except.ok "hi") args (3 - 1)
          = .error e ∧
        out.result = some ("Error (已重试" ++ toString 3 ++ "次): " ++ e) ∧
        out.toolMessage.content = "Error (已重试" ++ toString 3 ++ "次): " ++ e) :=
  tool_retry_semantics
    (fun name => if name = "echo" then
      some (fun _ k => if k = 0 then Except.error "boom" else Except.ok "hi")
    else none)
    ["write_file"] false none (fun _ => some []) [] (fun l => !l.isEmpty) 3
    ⟨"call1", "echo", "not json"⟩
    (fun _ k => if k = 0 then Except.error "boom" else Except.ok "hi")
    rfl (by decide)

/-- C10.  A tool call whose raw argument text fails JSON parsing is
dispatched anyway: the arguments silently become the empty dict and the
callable is invoked (at least once) with no keyword arguments; no parse
error is reported. -/
theorem invalid_json_dispatches_empty_args {Args : Type}
    (af : String → Option (Args → Nat → Except String String))
    (riskyTools : List String) (autoApproveRisky : Bool)
    (cb : Option (String → Args → Bool × Option String × Option Args))
    (jsonParse : String → Option Args) (emptyArgs : Args) (truthyArgs : Args → Bool)
    (maxToolRetries : Nat) (tc : ToolCallEntry) (f : Args → Nat → Except String String)
    (hf : af tc.name = some f) (hnr : tc.name ∉ riskyTools)
    (hparse : jsonParse tc.arguments = none) (hpos : 0 < maxToolRetries) :
    let out := runToolCall af riskyTools autoApproveRisky cb jsonParse emptyArgs
      truthyArgs maxToolRetries tc
    out.argsUsed = some emptyArgs ∧ 0 < out.invocations := by
  intro out
  have hargs : parsedArgs jsonParse emptyArgs tc = emptyArgs := by
    simp [parsedArgs, hparse]
  have hrt := runToolCall_nonrisky af riskyTools autoApproveRisky cb jsonParse
    emptyArgs truthyArgs maxToolRetries tc f hf hnr
  constructor
  · simp [out, hrt, hargs]
  · simp only [out, hrt]
    exact retryLoop_invocations_pos _ _ hpos

theorem invalid_json_dispatches_empty_args_witness :
    let out := runToolCall
      (fun name => if name = "echo" then
        some (fun (_ : List (String × String)) (_ : Nat) => Except.ok "hi")
      else none)
      ["write_file"] false none (fun _ => none) ([] : List (String × String))
      (fun l => !l.isEmpty) 3 ⟨"call1", "echo", "bad json"⟩
    out.argsUsed = some ([] : List (String × String)) ∧ 0 < out.invocations :=
  invalid_json_dispatches_empty_args
    (fun name => if name = "echo" then
      some (fun (_ : List (String × String)) (_ : Nat) => Except.ok "hi")
    else none)
    ["write_file"] false none (fun _ => none) [] (fun l => !l.isEmpty) 3
    ⟨"call1", "echo", "bad json"⟩ (fun _ _ => Except.ok "hi") rfl (by decide) rfl
    (by decide)

/-! ## Runtime statistics and the event bus (`core/opencode_runtime.py`)

`RuntimeStats` holds the counters of one `OpencodeRuntime` instance;
`BusOp` is one statistics-touching bus operation (`otherEmit` stands for
every method that only emits — `stage`, `clear_stage`, `system_message`,
`tool_plan`, the stream start/end markers, `set_provider`, `set_model`,
`set_build_mode`, `step_limit`, `finish`).  Cost is a rational, standing
for the Python float that only ever has non-negative amounts added. -/

structure RuntimeStats where
  turns : Nat
  agentSteps : Nat
  toolCalls : Nat
  toolFailures : Nat
  inputChars : Nat
  streamChars : Nat
  reasoningChars : Nat
  promptTokens : Nat
  completionTokens : Nat
  totalTokens : Nat
  totalCostUsd : ℚ
  deriving DecidableEq, Repr

/-- The zeroed counters set in `OpencodeRuntime.__init__`. -/
def initialStats : RuntimeStats := ⟨0, 0, 0, 0, 0, 0, 0, 0, 0, 0, 0⟩

inductive BusOp where
  | userTurn (text : String)
  | assistantStreamToken (token : String)
  | assistantReasoningToken (token : String)
  | toolCall (name : String)
  | toolResult (success : Bool)
  | setAgentStep (step : Nat)
  | addUsage (promptTokens completionTokens totalTokens : Int) (costUsd : ℚ)
  | otherEmit (eventType : String)
  deriving DecidableEq, Repr

/-- How each bus method updates the counters (`user_turn`,
`assistant_stream_token`, `assistant_reasoning_token`, `tool_call`,
`tool_result`, `set_agent_step`, `add_usage`). -/
def applyOp (s : RuntimeStats) : BusOp → RuntimeStats
  | .userTurn text =>
    { s with turns := s.turns + 1, inputChars := s.inputChars + text.length }
  | .assistantStreamToken token =>
    { s with streamChars := s.streamChars + token.length }
  | .assistantReasoningToken token =>
    { s with reasoningChars := s.reasoningChars + token.length }
  | .toolCall _ => { s with toolCalls := s.toolCalls + 1 }
  | .toolResult success =>
    if success then s else { s with toolFailures := s.toolFailures + 1 }
  | .setAgentStep step => { s with agentSteps := step }
  | .addUsage p c t cost =>
    let prompt := (max 0 p).toNat
    let completion := (max 0 c).toNat
    let total0 := (max 0 t).toNat
    let total := if total0 ≤ 0 then prompt + completion else total0
    { s with promptTokens := s.promptTokens + prompt,
             completionTokens := s.completionTokens + completion,
             totalTokens := s.totalTokens + total,
             totalCostUsd := s.totalCostUsd + max 0 cost }
  | .otherEmit _ => s

/-- C7 is false as stated: the steps counter is assigned, not accumulated
(`set_agent_step` does `self.agent_steps = step`), and `handle_input`
restarts it from 1 on every turn — so across the bus operations of two
turns it decreases (here from 5 back to 1). -/
theorem stats_steps_decrease_counterexample :
    (applyOp (applyOp initialStats (BusOp.setAgentStep 5))
        (BusOp.setAgentStep 1)).agentSteps <
      (applyOp initialStats (BusOp.setAgentStep 5)).agentSteps := by
  decide

theorem applyOp_counters_le (s : RuntimeStats) (op : BusOp) :
    s.toolCalls ≤ (applyOp s op).toolCalls ∧
    s.toolFailures ≤ (applyOp s op).toolFailures ∧
    s.promptTokens ≤ (applyOp s op).promptTokens ∧
    s.completionTokens ≤ (applyOp s op).completionTokens ∧
    s.totalTokens ≤ (applyOp s op).totalTokens ∧
    s.totalCostUsd ≤ (applyOp s op).totalCostUsd := by
  cases op with
  | toolResult success => cases success <;> simp [applyOp]
  | addUsage p c t cost =>
    refine ⟨?_, ?_, ?_, ?_, ?_, ?_⟩ <;>
      simp [applyOp, le_max_left, Nat.le_add_right]
  | userTurn text => simp [applyOp]
  | assistantStreamToken token => simp [applyOp]
  | assistantReasoningToken token => simp [applyOp]
  | toolCall name => simp [applyOp]
  | setAgentStep step => simp [applyOp]
  | otherEmit eventType => simp [applyOp]

/-- C7 (amended).  The tool-call, tool-failure, token and cumulative-cost
counters are monotonically non-decreasing across every sequence of bus
operations, and reset only with a fresh `OpencodeRuntime` (a new
`initialStats`); the steps counter is excluded because `set_agent_step`
overwrites it and `handle_input` restarts it at 1 on each turn (see the
counterexample). -/
theorem stats_counters_monotone (ops : List BusOp) (s : RuntimeStats) :
    s.toolCalls ≤ (ops.foldl applyOp s).toolCalls ∧
    s.toolFailures ≤ (ops.foldl applyOp s).toolFailures ∧
    s.promptTokens ≤ (ops.foldl applyOp s).promptTokens ∧
    s.completionTokens ≤ (ops.foldl applyOp s).completionTokens ∧
    s.totalTokens ≤ (ops.foldl applyOp s).totalTokens ∧
    s.totalCostUsd ≤ (ops.foldl applyOp s).totalCostUsd := by
  induction ops generalizing s with
  | nil =>
    exact ⟨Nat.le_refl _, Nat.le_refl _, Nat.le_refl _, Nat.le_refl _,
      Nat.le_refl _, le_refl _⟩
  | cons op rest ih =>
    obtain ⟨h1, h2, h3, h4, h5, h6⟩ := applyOp_counters_le s op
    obtain ⟨g1, g2, g3, g4, g5, g6⟩ := ih (applyOp s op)
    exact ⟨Nat.le_trans h1 g1, Nat.le_trans h2 g2, Nat.le_trans h3 g3,
      Nat.le_trans h4 g4, Nat.le_trans h5 g5, le_trans h6 g6⟩

/-- `RuntimeEvent`: `{type, at, payload}`. -/
structure RuntimeEvent where
  type : String
  atTime : Nat
  payload : List (String × String)
  deriving DecidableEq, Repr

/-- The listener loop of `OpencodeRuntime.emit`:
`for handler in self._handlers: handler(event)` — no exception handling.
A handler is a function that may raise (`Except.error`).  Returns how many
handlers were invoked and the exception that escaped, if any. -/
def emitHandlers (handlers : List (RuntimeEvent → Except String Unit))
    (e : RuntimeEvent) : Nat × Option String :=
  match handlers with
  | [] => (0, none)
  | h :: rest =>
    match h e with
    | .ok _ =>
      let r := emitHandlers rest e
      (r.1 + 1, r.2)
    | .error msg => (1, some msg)

/-- C8 is false as stated: with two registered listeners of which the
first raises, `emit` invokes only one — the second listener never receives
the event — and the exception escapes to the caller (aborting the emitting
loop unless some caller catches it). -/
theorem listener_exception_counterexample :
    emitHandlers [fun _ => Except.error "boom", fun _ => Except.ok ()]
        ⟨"turn.user", 0, []⟩ = (1, some "boom") ∧
    ([(fun _ => Except.error "boom"), fun _ => Except.ok ()] :
        List (RuntimeEvent → Except String Unit)).length = 2 := by
  exact ⟨rfl, rfl⟩

/-- C8 (amended).  `emit` runs listeners in registration order with no
exception handling: when every listener before position `k` succeeds and
the listener at `k` raises, exactly the first `k + 1` listeners are
invoked — later listeners do not receive the event — and the exception
propagates to `emit`'s caller. -/
theorem emit_stops_at_first_raising_listener
    (pre : List (RuntimeEvent → Except String Unit))
    (h : RuntimeEvent → Except String Unit)
    (post : List (RuntimeEvent → Except String Unit))
    (e : RuntimeEvent) (msg : String)
    (hpre : ∀ g ∈ pre, g e = Except.ok ()) (hh : h e = Except.error msg) :
    emitHandlers (pre ++ h :: post) e = (pre.length + 1, some msg) := by
  induction pre with
  | nil => simp [emitHandlers, hh]
  | cons g rest ih =>
    have hg : g e = Except.ok () := hpre g (List.mem_cons_self g rest)
    have hrest := ih fun g2 hg2 => hpre g2 (List.mem_cons_of_mem g hg2)
    simp [emitHandlers, hg, hrest]

theorem emit_stops_at_first_raising_listener_witness :
    emitHandlers [fun _ => Except.ok (), fun _ => Except.error "boom",
        fun _ => Except.ok ()] ⟨"tool.call", 3, [("name", "write_file")]⟩ =
      (2, some "boom") :=
  emit_stops_at_first_raising_listener [fun _ => Except.ok ()]
    (fun _ => Except.error "boom") [fun _ => Except.ok ()]
    ⟨"tool.call", 3, [("name", "write_file")]⟩ "boom"
    (fun g hg => by rw [List.mem_singleton] at hg; rw [hg]) rfl

end AgentCore
